import Mathlib

/-!
Verification of the IntelliJ-Log-Analyzer classification-and-aggregation core.

The definitions below are a shallow embedding of the Go sources
(`backend/analyzer` package and the top-level `backend` entry points).
Go maps are modelled as association lists, Go slices as lists, `time.Time`
as a natural number (the zero value is `0`), and the concurrent directory
walk as a sequential fold over the list of filesystem entries (all writes
to shared state are serialized by a single mutex in the source, and every
settled property is insensitive to the interleaving order).  Definitions
whose Go implementation is not part of the analyzed sources carry a doc
comment starting with `Modelled from the spec:`.
-/

/-! ### String utilities (strings.Contains, filepath.Base, hidden files) -/

/-- Whether the character list `pat` is an initial segment of `cs`
(helper for the embedding of `strings.Contains` and of path-ancestor tests). -/
def leadsWith : List Char → List Char → Bool
  | [], _ => true
  | _ :: _, [] => false
  | p :: ps, c :: cs => p == c && leadsWith ps cs

/-- Whether the character list `pat` occurs contiguously inside `cs`. -/
def hasSub (pat : List Char) : List Char → Bool
  | [] => leadsWith pat []
  | c :: cs => leadsWith pat (c :: cs) || hasSub pat cs

/-- Embedding of Go `strings.Contains s sub`. -/
def stringContains (s sub : String) : Bool :=
  hasSub sub.data s.data

/-- Whether string `p` is an initial segment of string `q`. -/
def strLeads (p q : String) : Bool :=
  leadsWith p.data q.data

/-- Splitting of a character list at a separator. -/
def splitOnChar (sep : Char) : List Char → List (List Char)
  | [] => [[]]
  | c :: cs =>
    let r := splitOnChar sep cs
    if c == sep then [] :: r
    else
      match r with
      | [] => [[c]]
      | h :: t => (c :: h) :: t

/-- Embedding of Go `filepath.Base`: the last non-empty component of a
slash-separated path (`"."` for the empty path, `"/"` for a root path). -/
def filepathBase (p : String) : String :=
  if p == "" then "." else
  match ((splitOnChar '/' p.data).filter (fun c => !(List.isEmpty c))).getLast? with
  | some c => String.mk c
  | none => "/"

/-- Embedding of `IsHiddenFile` (InstallationsFinder.go): on every platform
except windows a file is hidden iff its name starts with a dot.  The
platform (`runtime.GOOS`) is passed explicitly.  (The Go code indexes
`filename[0:1]` and would panic on an empty name; callers always pass a
`filepath.Base` result, which is never empty.) -/
def IsHiddenFile (goos : String) (filename : String) : Bool :=
  if goos == "windows" then false else
  match filename.data with
  | [] => false
  | c :: _ => c == '.'

/-! ### SHA-1 over byte lists: embedding of `getHash` (crypto/sha1 + `%x` + "\n")

Machine words are naturals kept below `2 ^ 32`; every operation reduces
modulo `4294967296`.  Bitwise operations are computed positionally from
`div`/`mod` so that all arithmetic is plain `Nat` arithmetic. -/

/-- Bit `i` of `a` (0 or 1). -/
def bitAt (a i : Nat) : Nat := a / 2 ^ i % 2

/-- Bitwise AND on 32-bit words. -/
def bitAnd32 (a b : Nat) : Nat :=
  (List.range 32).foldl (fun acc i => acc + bitAt a i * bitAt b i * 2 ^ i) 0

/-- Bitwise XOR on 32-bit words. -/
def bitXor32 (a b : Nat) : Nat :=
  (List.range 32).foldl (fun acc i => acc + (bitAt a i + bitAt b i) % 2 * 2 ^ i) 0

/-- Bitwise complement on a 32-bit word (valid for `a < 2 ^ 32`). -/
def bitNot32 (a : Nat) : Nat := 4294967295 - a

/-- Addition modulo `2 ^ 32`. -/
def add32 (a b : Nat) : Nat := (a + b) % 4294967296

/-- Left rotation of a 32-bit word by `s` places (for `a < 2 ^ 32`, `s ≤ 32`). -/
def rotl32 (a s : Nat) : Nat := (a * 2 ^ s + a / 2 ^ (32 - s)) % 4294967296

/-- UTF-8 encoding of one code point as a byte list. -/
def utf8Bytes (n : Nat) : List Nat :=
  if n < 128 then [n]
  else if n < 2048 then [192 + n / 64, 128 + n % 64]
  else if n < 65536 then [224 + n / 4096, 128 + n / 64 % 64, 128 + n % 64]
  else [240 + n / 262144, 128 + n / 4096 % 64, 128 + n / 64 % 64, 128 + n % 64]

/-- The UTF-8 bytes of a string (Go `[]byte(s)`). -/
def strBytes (s : String) : List Nat :=
  s.data.flatMap (fun c => utf8Bytes c.toNat)

/-- Big-endian bytes of `n`, `k` bytes wide. -/
def natToBytesBE (k n : Nat) : List Nat :=
  (List.range k).map (fun i => n / 2 ^ (8 * (k - 1 - i)) % 256)

/-- SHA-1 padding: append `0x80`, zeros to 56 mod 64, and the 64-bit
big-endian bit length. -/
def sha1Pad (msg : List Nat) : List Nat :=
  msg ++ [128] ++ List.replicate ((119 - msg.length % 64) % 64) 0
      ++ natToBytesBE 8 (8 * msg.length)

/-- The sixteen 32-bit big-endian words of one 64-byte chunk. -/
def chunkWords (chunk : List Nat) : List Nat :=
  (List.range 16).map (fun i =>
    chunk.getD (4 * i) 0 * 16777216 + chunk.getD (4 * i + 1) 0 * 65536 +
    chunk.getD (4 * i + 2) 0 * 256 + chunk.getD (4 * i + 3) 0)

/-- Extension of the 16 schedule words to 80. -/
def sha1Schedule (ws : List Nat) : List Nat :=
  (List.range 64).foldl (fun acc _ =>
    acc ++ [rotl32 (bitXor32 (bitXor32 (acc.getD (acc.length - 3) 0) (acc.getD (acc.length - 8) 0))
                             (bitXor32 (acc.getD (acc.length - 14) 0) (acc.getD (acc.length - 16) 0))) 1]) ws

/-- Round constant. -/
def sha1K (t : Nat) : Nat :=
  if t < 20 then 1518500249 else if t < 40 then 1859775393
  else if t < 60 then 2400959708 else 3395469782

/-- Round function: choose, parity, majority, parity. -/
def sha1F (t b c d : Nat) : Nat :=
  if t < 20 then bitAnd32 b c + bitAnd32 (bitNot32 b) d
  else if t < 40 then bitXor32 (bitXor32 b c) d
  else if t < 60 then bitXor32 (bitXor32 (bitAnd32 b c) (bitAnd32 b d)) (bitAnd32 c d)
  else bitXor32 (bitXor32 b c) d

/-- One compression round. -/
def sha1Round (w : List Nat) (st : Nat × Nat × Nat × Nat × Nat) (t : Nat) :
    Nat × Nat × Nat × Nat × Nat :=
  match st with
  | (a, b, c, d, e) =>
    let tmp := add32 (add32 (add32 (add32 (rotl32 a 5) (sha1F t b c d)) e) (sha1K t)) (w.getD t 0)
    (tmp, a, rotl32 b 30, c, d)

/-- Processing of one 64-byte chunk. -/
def sha1Chunk (h : Nat × Nat × Nat × Nat × Nat) (chunk : List Nat) :
    Nat × Nat × Nat × Nat × Nat :=
  match h with
  | (h0, h1, h2, h3, h4) =>
    let w := sha1Schedule (chunkWords chunk)
    match (List.range 80).foldl (sha1Round w) (h0, h1, h2, h3, h4) with
    | (a, b, c, d, e) => (add32 h0 a, add32 h1 b, add32 h2 c, add32 h3 d, add32 h4 e)

/-- SHA-1 digest (20 bytes) of a byte list. -/
def sha1Bytes (msg : List Nat) : List Nat :=
  let padded := sha1Pad msg
  let chunks := (List.range (padded.length / 64)).map (fun i => (padded.drop (64 * i)).take 64)
  match chunks.foldl sha1Chunk (1732584193, 4023233417, 2562383102, 271733878, 3285377520) with
  | (h0, h1, h2, h3, h4) =>
    natToBytesBE 4 h0 ++ natToBytesBE 4 h1 ++ natToBytesBE 4 h2 ++ natToBytesBE 4 h3 ++ natToBytesBE 4 h4

/-- Lowercase hex digit. -/
def hexDigit (n : Nat) : Char :=
  if n < 10 then Char.ofNat (48 + n) else Char.ofNat (87 + n)

/-- Two lowercase hex digits of a byte. -/
def byteToHex (b : Nat) : List Char := [hexDigit (b / 16), hexDigit (b % 16)]

/-- Embedding of `getHash` (analyzer): the SHA-1 of the literal path string,
formatted with `fmt.Sprintf("%x\n", …)` — lowercase hex followed by a
newline. -/
def getHash (s : String) : String :=
  String.mk ((sha1Bytes (strBytes s)).flatMap byteToHex ++ ['\n'])

/-! ### Log records and the aggregated log -/

/-- One normalized log record.  `Severity`, `Time` and `Text` are the fields
set by the entity converters in the sources (ThreadDumps.go); `entityName`
and `instanceHash` are filled in by the aggregator when the record is
appended (spec §3: a LogRecord carries the owning EntityInstance
identifier).  `time.Time` is modelled as `Nat` with zero value `0`. -/
structure LogEntry where
  severity : String := ""
  time : Nat := 0
  text : String := ""
  entityName : String := ""
  instanceHash : String := ""
deriving Repr, DecidableEq

/-- The `Logs` slice type (`type Logs []LogEntry`). -/
abbrev Logs : Type := List LogEntry

/-- Modelled from the spec: the `Logs.IsEmpty` implementation is not among
the analyzed sources; §4.3 says `isEmpty` "reports whether any record
exists". -/
def Logs.IsEmpty (l : Logs) : Bool := List.isEmpty l

/-- Modelled from the spec: the `Logs.AppendSeveral` implementation is not
among the analyzed sources; §4.3 gives the aggregator contract
`append(entityName, instance, records)` and §3 says each record carries the
owning EntityInstance identifier.  Every appended record is tagged with the
entity name and the instance hash. -/
def Logs.AppendSeveral (l : Logs) (name : String) (hash : String) (new : List LogEntry) : Logs :=
  l ++ new.map (fun r => { r with entityName := name, instanceHash := hash })

/-- One step of the stable insertion sort: `r` is placed before the first
element whose timestamp is not smaller, hence after every earlier-inserted
record with an equal timestamp. -/
def insertByTime (r : LogEntry) : List LogEntry → List LogEntry
  | [] => [r]
  | x :: xs => if r.time ≤ x.time then r :: x :: xs else x :: insertByTime r xs

/-- Modelled from the spec: the `Logs.SortByTime` implementation is not
among the analyzed sources; §4.3 says it "performs a stable sort ascending
by timestamp; records with equal timestamps retain relative insertion
order".  Stable insertion sort ascending by `time`. -/
def Logs.SortByTime : Logs → Logs
  | [] => []
  | x :: xs => insertByTime x (Logs.SortByTime xs)

/-! ### Dynamic and static entities -/

/-- Embedding of `DynamicEntityProperties`. -/
structure DynamicEntityProperties where
  hash : String
  visible : Bool
deriving Repr, DecidableEq

/-- Lookup in an association-list model of a Go `map[string]β`. -/
def instLookup {β : Type} : List (String × β) → String → Option β
  | [], _ => none
  | (a, b) :: t, k => bif a == k then some b else instLookup t k

/-- Key update in an association-list model of a Go `map[string]β`
(overwrites an existing binding, otherwise appends). -/
def mapInsert {β : Type} (m : List (String × β)) (k : String) (v : β) : List (String × β) :=
  if (instLookup m k).isSome then m.map (fun q => bif q.1 == k then (k, v) else q)
  else m ++ [(k, v)]

/-- Embedding of `DynamicEntity` (analyzer).  Function-valued fields keep
the Go field semantics; optional Go function fields (nil-able) are
`Option`s.  `ConvertPathToLogs` returns `none` for a nil Go slice and
`some l` for a non-nil slice `l` (the source distinguishes the two). -/
structure DynamicEntity where
  name : String
  entityInstances : List (String × DynamicEntityProperties) := []
  convertPathToLogs : String → Option (List LogEntry)
  convertStringToLogs : Option (String → Option LogEntry) := none
  getChangeablePath : Option (String → String) := none
  checkPath : String → Bool
  checkIgnoredPath : Option (String → Bool) := none
  defaultVisibility : Option (String → Bool) := none
  getDisplayName : String → String := fun p => p
  lineHighlightingColor : String := ""

/-- Embedding of `DynamicEntity.addDynamicEntityInstance`: stores
`{Hash: getHash path, Visible: visible}` under key `path` (the Go nil-map
initialization is implicit in the association-list model). -/
def DynamicEntity.addDynamicEntityInstance (e : DynamicEntity) (path : String) (visible : Bool) :
    DynamicEntity :=
  { e with entityInstances := mapInsert e.entityInstances path ⟨getHash path, visible⟩ }

/-- The entity with its instance map dropped: two entities with equal
`clearInst` images have identical classification behavior. -/
def DynamicEntity.clearInst (e : DynamicEntity) : DynamicEntity :=
  { e with entityInstances := [] }

/-- Modelled from the spec: the `StaticInfo` type is not among the analyzed
sources; only its zero value matters here, so it is a record of key/value
pairs. -/
structure StaticInfo where
  data : List (String × String) := []
deriving Repr, DecidableEq

/-- Embedding of `StaticEntity` (analyzer). -/
structure StaticEntity where
  name : String
  convertToStaticInfo : String → StaticInfo
  checkPath : String → Bool
  collectedInfo : StaticInfo := {}

/-- The static entity with its collected info dropped (classification
behavior only). -/
def StaticEntity.statClear (s : StaticEntity) : StaticEntity :=
  { s with collectedInfo := {} }

/-! ### Filters, thread dumps, aggregated static info -/

/-- Embedding of `FilterEntry` (fields visible in the sources: `ID`,
`Checked`, plus the display label and color from spec §3). -/
structure FilterEntry where
  id : String
  filename : String
  checked : Bool
  color : String
deriving Repr, DecidableEq

/-- The `Filters` map, keyed by entity name. -/
abbrev Filters : Type := List (String × List FilterEntry)

/-- Modelled from the spec: the `Filters.IsEmpty` implementation is not
among the analyzed sources; emptiness of the filter map. -/
def Filters.IsEmpty (f : Filters) : Bool := List.isEmpty f

/-- Modelled from the spec: the `ThreadDump` artifact-analysis value is not
among the analyzed sources; keyed file contents. -/
abbrev ThreadDump : Type := List (String × String)

/-- The memoization table for analyzed thread-dump folders. -/
abbrev AggregatedThreadDumps : Type := List (String × ThreadDump)

/-- The aggregated static info map. -/
abbrev AggregatedStaticInfo : Type := List (String × StaticInfo)

/-! ### The Analyzer -/

/-- Embedding of the `Analyzer` struct.  The `*context.Context` pointer is
represented by whether it is non-nil, `time.Time` by a natural, the
watcher slice by a list of units (stopping a watcher is an external
effect).  Go nil slices/maps are identified with the empty list. -/
structure Analyzer where
  contextIsSet : Bool := false
  folderToWorkWith : String := ""
  isFolderTemp : Bool := false
  fileWatchers : List Unit := []
  lastModifiedFileTime : Nat := 0
  dynamicEntities : List DynamicEntity := []
  staticEntities : List StaticEntity := []
  filters : Filters := []
  otherFiles : List String := []
  aggregatedLogs : Logs := []
  aggregatedThreadDumps : AggregatedThreadDumps := []
  aggregatedStaticInfo : AggregatedStaticInfo := []

/-- Embedding of `Analyzer.IsEmpty`: `reflect.ValueOf(*a).IsZero()` is true
iff every field of the struct is its zero value (nil slices/maps are
identified with empty lists in the model). -/
def Analyzer.IsEmpty (a : Analyzer) : Bool :=
  !a.contextIsSet && a.folderToWorkWith == "" && !a.isFolderTemp &&
  a.fileWatchers.isEmpty && a.lastModifiedFileTime == 0 &&
  a.dynamicEntities.isEmpty && a.staticEntities.isEmpty &&
  Filters.IsEmpty a.filters && a.otherFiles.isEmpty &&
  Logs.IsEmpty a.aggregatedLogs && List.isEmpty a.aggregatedThreadDumps &&
  List.isEmpty a.aggregatedStaticInfo

/-- Embedding of `Analyzer.GetLogs`: the aggregated log, or nil when no
record exists. -/
def Analyzer.GetLogs (a : Analyzer) : Option Logs :=
  if !(Logs.IsEmpty a.aggregatedLogs) then some a.aggregatedLogs else none

/-- Embedding of `Analyzer.GetOtherFiles`: the unclassified files — guarded
by emptiness of the aggregated log, not of OtherFiles itself. -/
def Analyzer.GetOtherFiles (a : Analyzer) : Option (List String) :=
  if !(Logs.IsEmpty a.aggregatedLogs) then some a.otherFiles else none

/-- Embedding of `Analyzer.GetFilters`. -/
def Analyzer.GetFilters (a : Analyzer) : Option Filters :=
  if !(Filters.IsEmpty a.filters) then some a.filters else none

/-- Embedding of `aggregateStaticInfo`: one map entry per static entity
(map iteration order modelled as the slice order). -/
def aggregateStaticInfo (ss : List StaticEntity) : AggregatedStaticInfo :=
  ss.foldl (fun m s => mapInsert m s.name s.collectedInfo) ([] : List (String × StaticInfo))

/-- Embedding of `Analyzer.GetStaticInfo`.  The Go method recurses into
itself after populating the aggregate; the fuel argument bounds that
recursion (`none` models divergence, which Go reaches only with zero
registered static entities). -/
def getStaticInfoGo : Nat → Analyzer → Option (AggregatedStaticInfo × Analyzer)
  | 0, _ => none
  | fuel + 1, a =>
    if !(List.isEmpty a.aggregatedStaticInfo) then some (a.aggregatedStaticInfo, a)
    else getStaticInfoGo fuel { a with aggregatedStaticInfo := aggregateStaticInfo a.staticEntities }

/-- Embedding of `Analyzer.Clear`: empties all aggregation state and every
per-entity instance map, resets the temp-folder flag and the watcher list,
and leaves the registered entities (and the working folder and context)
in place.  Deleting the temp folder and stopping watchers are external
effects outside the state model. -/
def Analyzer.Clear (a : Analyzer) : Analyzer :=
  { a with
    aggregatedLogs := [],
    filters := [],
    otherFiles := [],
    aggregatedStaticInfo := [],
    aggregatedThreadDumps := [],
    lastModifiedFileTime := 0,
    staticEntities := a.staticEntities.map StaticEntity.statClear,
    dynamicEntities := a.dynamicEntities.map DynamicEntity.clearInst,
    isFolderTemp := false,
    fileWatchers := [] }

/-! ### The directory scanner -/

/-- Whether the entity's (optional) ignore predicate fires for `path`. -/
def ignoreFires (e : DynamicEntity) (path : String) : Bool :=
  match e.checkIgnoredPath with
  | some f => f path
  | none => false

/-- The default-visibility function resolved as in the source: `true` when
the field is nil. -/
def visOf (e : DynamicEntity) (path : String) : Bool :=
  (e.defaultVisibility.getD (fun _ => true)) path

/-- Embedding of `Analyzer.CollectLogsFromDynamicEntities`.  The entity
list and the aggregated-log accumulator are threaded explicitly; the
result is the updated entity list, the updated aggregated log, and the
`analyzed` flag.  An ignore match returns immediately with the remaining
entities untouched; a productive match records an instance and appends the
converted records tagged with the freshly stored instance hash. -/
def CollectLogsFromDynamicEntities (path : String) (logs : Logs) :
    List DynamicEntity → List DynamicEntity × Logs × Bool
  | [] => ([], logs, false)
  | e :: es =>
    if ignoreFires e path then (e :: es, logs, true)
    else if e.checkPath path then
      match e.convertPathToLogs path with
      | none =>
        let r := CollectLogsFromDynamicEntities path logs es
        (e :: r.1, r.2.1, r.2.2)
      | some entries =>
        let v := visOf e path
        let r := CollectLogsFromDynamicEntities path
          (Logs.AppendSeveral logs e.name (getHash path) entries) es
        (e.addDynamicEntityInstance path v :: r.1, r.2.1, true)
    else
      let r := CollectLogsFromDynamicEntities path logs es
      (e :: r.1, r.2.1, r.2.2)

/-- Embedding of `Analyzer.CollectStaticInfoFromStaticEntities`. -/
def CollectStaticInfoFromStaticEntities (path : String) :
    List StaticEntity → List StaticEntity × Bool
  | [] => ([], false)
  | s :: ss =>
    let r := CollectStaticInfoFromStaticEntities path ss
    if s.checkPath path then ({ s with collectedInfo := s.convertToStaticInfo path } :: r.1, true)
    else (s :: r.1, r.2)

/-- One filesystem entry seen by the walk: its path and whether it is a
directory. -/
structure FsEntry where
  path : String
  isDir : Bool
deriving Repr, DecidableEq

/-- The scanner's shared aggregation state during the walk. -/
structure ScanAcc where
  dyn : List DynamicEntity
  stat : List StaticEntity
  logs : Logs
  collected : List String
  other : List String

/-- Modelled from the spec: the `OtherFiles.FilterAnalyzedDirectories`
implementation is not among the analyzed sources; §4.2 says OtherFiles "is
then filtered to remove any path that lies within a directory already
fully claimed" by a recognized entity.  A path is removed when some
collected path, extended with the separator, is an initial segment of it. -/
def FilterAnalyzedDirectories (other collected : List String) : List String :=
  other.filter (fun q => !(collected.any (fun d => strLeads (d ++ "/") q)))

/-- Processing of one walked entry (the body of `visit` in
`ParseLogDirectory`): classify against every dynamic and static entity;
a handled path joins `collectedFiles`, an unhandled non-hidden file joins
`OtherFiles`. -/
def processEntry (goos : String) (acc : ScanAcc) (fe : FsEntry) : ScanAcc :=
  let rd := CollectLogsFromDynamicEntities fe.path acc.logs acc.dyn
  let rs := CollectStaticInfoFromStaticEntities fe.path acc.stat
  { dyn := rd.1, stat := rs.1, logs := rd.2.1,
    collected := if rs.2 || rd.2.2 then acc.collected ++ [fe.path] else acc.collected,
    other :=
      if rs.2 || rd.2.2 then acc.other
      else if !fe.isDir && !(IsHiddenFile goos (filepathBase fe.path)) then acc.other ++ [fe.path]
      else acc.other }

/-- Embedding of `Analyzer.ParseLogDirectory`: fold the per-entry
processing over the walked entries (the Go version runs one goroutine per
entry, serialized by a mutex; the fold fixes one interleaving), then
filter `OtherFiles` against the collected paths. -/
def Analyzer.ParseLogDirectory (a : Analyzer) (goos : String) (entries : List FsEntry) : Analyzer :=
  let acc := entries.foldl (processEntry goos)
    { dyn := a.dynamicEntities, stat := a.staticEntities, logs := a.aggregatedLogs,
      collected := [], other := a.otherFiles }
  { a with dynamicEntities := acc.dyn, staticEntities := acc.stat, aggregatedLogs := acc.logs,
           otherFiles := FilterAnalyzedDirectories acc.other acc.collected }

/-! ### Filters generation and the top-level entry point -/

/-- Stable insertion by display label (ascending). -/
def insertByLabel (r : FilterEntry) : List FilterEntry → List FilterEntry
  | [] => [r]
  | x :: xs => if r.filename ≤ x.filename then r :: x :: xs else x :: insertByLabel r xs

/-- Stable sort of filter entries by display label. -/
def sortByLabel : List FilterEntry → List FilterEntry
  | [] => []
  | x :: xs => insertByLabel x (sortByLabel xs)

/-- Modelled from the spec: the `Filters.Append`/`SortByFilename` helpers
used by `Analyzer.GenerateFilters` are not among the analyzed sources;
§4.4 asks for one FilterEntry per EntityInstance (identifier, display
label via the display-name resolver, default-visibility flag, highlight
color), grouped by entity name, entries sorted by display label.  Groups
exist only for entities owning at least one instance (the Go map gains a
key on first append). -/
def Analyzer.GenerateFilters (a : Analyzer) : Analyzer :=
  { a with filters :=
      (a.dynamicEntities.filter (fun e => !(List.isEmpty e.entityInstances))).map (fun e =>
        (e.name, sortByLabel (e.entityInstances.map (fun q =>
          ⟨q.2.hash, e.getDisplayName q.1, q.2.visible, e.lineHighlightingColor⟩)))) }

/-- Embedding of `InitLogDirectory` (backend): clear, record the context
and the root path, scan, sort, build filters; the returned flag is whether
the "could not find logs elements inside" error is reported, i.e. the
`IsEmpty` check. -/
def InitLogDirectory (goos path : String) (ctxSet : Bool) (entries : List FsEntry)
    (a : Analyzer) : Bool × Analyzer :=
  let a1 := { a.Clear with contextIsSet := ctxSet, folderToWorkWith := path }
  let a2 := a1.ParseLogDirectory goos entries
  let a3 := { a2 with aggregatedLogs := Logs.SortByTime a2.aggregatedLogs }
  let a4 := a3.GenerateFilters
  (a4.IsEmpty, a4)

/-! ### The thread-dump (capture folder) entity -/

/-- Embedding of `isThreadDump` (ThreadDumps.go): the path contains the
`"threadDump"` marker and is a directory.  `stat` abstracts
`os.Stat(path).IsDir()`. -/
def isThreadDump (stat : String → Bool) (path : String) : Bool :=
  if stringContains path "threadDump" then stat path else false

/-- Incremental parse of exactly `n` decimal digits. -/
def readDigits : Nat → Nat → List Char → Option (Nat × List Char)
  | 0, acc, cs => some (acc, cs)
  | n + 1, acc, c :: cs =>
    if c.isDigit then readDigits n (acc * 10 + (c.toNat - 48)) cs else none
  | _ + 1, _, [] => none

/-- Match `\d{8}-\d{6}` at the head of the character list, returning the
combined timestamp value. -/
def matchTimestamp (cs : List Char) : Option Nat :=
  match readDigits 8 0 cs with
  | some (d8, '-' :: rest) => (readDigits 6 0 rest).map (fun r => d8 * 1000000 + r.1)
  | _ => none

/-- First match of the timestamp pattern anywhere in the character list
(`0` when absent). -/
def scanTimestamp : List Char → Nat
  | [] => 0
  | c :: cs =>
    match matchTimestamp (c :: cs) with
    | some t => t
    | none => scanTimestamp cs

/-- Modelled from the spec: the `GetTimeStampFromThreadDump` implementation
is not among the analyzed sources; the capture-folder name carries a
timestamp such as `20230101-120000` (spec §8 Scenario B, and the
presentation layer extracts it with the regex `(\d{8}-)(\d{6})`), parsed
here into the `Nat` model of `time.Time` as `yyyymmdd * 10^6 + hhmmss`;
a path without the pattern yields the zero time. -/
def GetTimeStampFromThreadDump (path : String) : Nat :=
  scanTimestamp path.data

/-- Embedding of `getLogEntry` (ThreadDumps.go): the capture folder becomes
exactly one FREEZE record whose text names the folder and whose time is
parsed from the folder name. -/
def getLogEntry (path : String) : Logs :=
  ([{ severity := "FREEZE", time := GetTimeStampFromThreadDump path,
      text := "Freeze started: " ++ filepathBase path }] : List LogEntry)

/-! ### Closed forms for the per-path classification loop -/

/-- Whether the entity productively matches `path`: its classification
predicate holds and its converter returns a non-nil slice. -/
def entityProductive (path : String) (e : DynamicEntity) : Bool :=
  e.checkPath path && (e.convertPathToLogs path).isSome

/-- The records the entity contributes for `path` (tagged, in order). -/
def entityContribution (path : String) (e : DynamicEntity) : Logs :=
  if e.checkPath path then
    match e.convertPathToLogs path with
    | some entries => Logs.AppendSeveral [] e.name (getHash path) entries
    | none => []
  else []

/-- The per-entity state change for `path` (an instance is stored exactly
on a productive match). -/
def entityStep (path : String) (e : DynamicEntity) : DynamicEntity :=
  if entityProductive path e then e.addDynamicEntityInstance path (visOf e path) else e

/-- The entity list after the classification loop for `path`: entities are
stepped in order until the first firing ignore predicate, after which the
remainder is untouched. -/
def applyScan (path : String) : List DynamicEntity → List DynamicEntity
  | [] => []
  | e :: es =>
    if ignoreFires e path then e :: es
    else entityStep path e :: applyScan path es

/-- The records produced for `path`: the concatenation of the per-entity
contributions up to the first firing ignore predicate. -/
def collectedLogsF (path : String) : List DynamicEntity → Logs
  | [] => []
  | e :: es =>
    if ignoreFires e path then []
    else entityContribution path e ++ collectedLogsF path es

/-- The `analyzed` flag for `path`: an ignore match or any productive match
up to the first firing ignore predicate. -/
def dynHandled (path : String) : List DynamicEntity → Bool
  | [] => false
  | e :: es =>
    if ignoreFires e path then true
    else entityProductive path e || dynHandled path es

/-- The classification loop equals its closed form. -/
theorem collect_eq (path : String) (logs : Logs) (ds : List DynamicEntity) :
    CollectLogsFromDynamicEntities path logs ds =
      (applyScan path ds, logs ++ collectedLogsF path ds, dynHandled path ds) := by
  induction ds generalizing logs with
  | nil => simp [CollectLogsFromDynamicEntities, applyScan, collectedLogsF, dynHandled]
  | cons e es ih =>
    by_cases hig : ignoreFires e path
    · simp [CollectLogsFromDynamicEntities, applyScan, collectedLogsF, dynHandled, hig]
    · by_cases hcp : e.checkPath path
      · cases hcv : e.convertPathToLogs path with
        | none =>
          have hprod : entityProductive path e = false := by
            simp [entityProductive, hcv]
          simp [CollectLogsFromDynamicEntities, applyScan, collectedLogsF, dynHandled,
                hig, hcp, hcv, ih, entityStep, entityContribution, hprod]
        | some entries =>
          have hprod : entityProductive path e = true := by
            simp [entityProductive, hcp, hcv]
          simp [CollectLogsFromDynamicEntities, applyScan, collectedLogsF, dynHandled,
                hig, hcp, hcv, ih, entityStep, entityContribution, hprod,
                Logs.AppendSeveral]
      · have hprod : entityProductive path e = false := by
          simp [entityProductive, hcp]
        simp [CollectLogsFromDynamicEntities, applyScan, collectedLogsF, dynHandled,
              hig, hcp, ih, entityStep, entityContribution, hprod]

/-- The per-entity state change of the static-info loop. -/
def staticStep (path : String) (s : StaticEntity) : StaticEntity :=
  if s.checkPath path then { s with collectedInfo := s.convertToStaticInfo path } else s

/-- The static-info loop equals its closed form. -/
theorem collectStatic_eq (path : String) (ss : List StaticEntity) :
    CollectStaticInfoFromStaticEntities path ss =
      (ss.map (staticStep path), ss.any (fun s => s.checkPath path)) := by
  induction ss with
  | nil => simp [CollectStaticInfoFromStaticEntities]
  | cons s ss ih =>
    by_cases h : s.checkPath path
    · simp [CollectStaticInfoFromStaticEntities, staticStep, h, ih]
    · simp [CollectStaticInfoFromStaticEntities, staticStep, h, ih]

theorem clearInst_checkPath {e e' : DynamicEntity} (h : e.clearInst = e'.clearInst) :
    e.checkPath = e'.checkPath := by
  have h2 := congrArg DynamicEntity.checkPath h
  exact h2

theorem clearInst_checkIgnoredPath {e e' : DynamicEntity} (h : e.clearInst = e'.clearInst) :
    e.checkIgnoredPath = e'.checkIgnoredPath := by
  have h2 := congrArg DynamicEntity.checkIgnoredPath h
  exact h2

theorem clearInst_convertPathToLogs {e e' : DynamicEntity} (h : e.clearInst = e'.clearInst) :
    e.convertPathToLogs = e'.convertPathToLogs := by
  have h2 := congrArg DynamicEntity.convertPathToLogs h
  exact h2

theorem clearInst_name {e e' : DynamicEntity} (h : e.clearInst = e'.clearInst) :
    e.name = e'.name := by
  have h2 := congrArg DynamicEntity.name h
  exact h2

theorem clearInst_defaultVisibility {e e' : DynamicEntity} (h : e.clearInst = e'.clearInst) :
    e.defaultVisibility = e'.defaultVisibility := by
  have h2 := congrArg DynamicEntity.defaultVisibility h
  exact h2

theorem ignoreFires_congr {e e' : DynamicEntity} (h : e.clearInst = e'.clearInst) (p : String) :
    ignoreFires e p = ignoreFires e' p := by
  unfold ignoreFires
  rw [clearInst_checkIgnoredPath h]

theorem entityProductive_congr {e e' : DynamicEntity} (h : e.clearInst = e'.clearInst)
    (p : String) : entityProductive p e = entityProductive p e' := by
  unfold entityProductive
  rw [clearInst_checkPath h, clearInst_convertPathToLogs h]

/-- The `analyzed` flag of the classification loop depends only on the
entities' behavior, not on their instance maps. -/
theorem dynHandled_congr {ds ds' : List DynamicEntity}
    (h : ds.map DynamicEntity.clearInst = ds'.map DynamicEntity.clearInst) (p : String) :
    dynHandled p ds = dynHandled p ds' := by
  induction ds generalizing ds' with
  | nil =>
    cases ds' with
    | nil => rfl
    | cons e' es' => simp at h
  | cons e es ih =>
    cases ds' with
    | nil => simp at h
    | cons e' es' =>
      simp only [List.map_cons, List.cons.injEq] at h
      obtain ⟨h1, h2⟩ := h
      simp only [dynHandled, ignoreFires_congr h1, entityProductive_congr h1, ih h2]

/-- Transfer of "no productive match" along behavior equality. -/
theorem prodFalse_congr {ds ds' : List DynamicEntity}
    (h : ds.map DynamicEntity.clearInst = ds'.map DynamicEntity.clearInst) (p : String)
    (hp : ∀ e ∈ ds, entityProductive p e = false) :
    ∀ e ∈ ds', entityProductive p e = false := by
  induction ds generalizing ds' with
  | nil =>
    cases ds' with
    | nil => intro e he; cases he
    | cons e' es' => simp at h
  | cons e es ih =>
    cases ds' with
    | nil => intro e' he'; cases he'
    | cons e' es' =>
      simp only [List.map_cons, List.cons.injEq] at h
      obtain ⟨h1, h2⟩ := h
      intro x hx
      cases hx with
      | head =>
        rw [← entityProductive_congr h1 p]
        exact hp e (List.mem_cons_self e es)
      | tail _ hmem =>
        exact ih h2 (fun y hy => hp y (List.mem_cons_of_mem e hy)) x hmem

/-- Transfer of "no firing ignore predicate" along behavior equality. -/
theorem ignFalse_congr {ds ds' : List DynamicEntity}
    (h : ds.map DynamicEntity.clearInst = ds'.map DynamicEntity.clearInst) (p : String)
    (hp : ∀ e ∈ ds, ignoreFires e p = false) :
    ∀ e ∈ ds', ignoreFires e p = false := by
  induction ds generalizing ds' with
  | nil =>
    cases ds' with
    | nil => intro e he; cases he
    | cons e' es' => simp at h
  | cons e es ih =>
    cases ds' with
    | nil => intro e' he'; cases he'
    | cons e' es' =>
      simp only [List.map_cons, List.cons.injEq] at h
      obtain ⟨h1, h2⟩ := h
      intro x hx
      cases hx with
      | head =>
        rw [← ignoreFires_congr h1 p]
        exact hp e (List.mem_cons_self e es)
      | tail _ hmem =>
        exact ih h2 (fun y hy => hp y (List.mem_cons_of_mem e hy)) x hmem

theorem clearInst_addInst (e : DynamicEntity) (p : String) (v : Bool) :
    (e.addDynamicEntityInstance p v).clearInst = e.clearInst := rfl

theorem clearInst_entityStep (e : DynamicEntity) (p : String) :
    (entityStep p e).clearInst = e.clearInst := by
  unfold entityStep
  split <;> rfl

/-- The classification loop preserves every entity's behavior. -/
theorem applyScan_clearInst (p : String) (ds : List DynamicEntity) :
    (applyScan p ds).map DynamicEntity.clearInst = ds.map DynamicEntity.clearInst := by
  induction ds with
  | nil => rfl
  | cons e es ih =>
    by_cases hig : ignoreFires e p
    · simp [applyScan, hig]
    · simp [applyScan, hig, clearInst_entityStep, ih]

theorem statClear_staticStep (p : String) (s : StaticEntity) :
    (staticStep p s).statClear = s.statClear := by
  unfold staticStep
  split <;> rfl

/-- The static loop preserves every static entity's behavior. -/
theorem staticMap_statClear (p : String) (ss : List StaticEntity) :
    (ss.map (staticStep p)).map StaticEntity.statClear = ss.map StaticEntity.statClear := by
  induction ss with
  | nil => rfl
  | cons s ss ih => simp [statClear_staticStep, ih]

theorem statClear_checkPath {s s' : StaticEntity} (h : s.statClear = s'.statClear) :
    s.checkPath = s'.checkPath := by
  have h2 := congrArg StaticEntity.checkPath h
  exact h2

/-- The static `analyzed` flag depends only on behavior. -/
theorem staticAny_congr {ss ss' : List StaticEntity}
    (h : ss.map StaticEntity.statClear = ss'.map StaticEntity.statClear) (p : String) :
    ss.any (fun s => s.checkPath p) = ss'.any (fun s => s.checkPath p) := by
  induction ss generalizing ss' with
  | nil =>
    cases ss' with
    | nil => rfl
    | cons s' t' => simp at h
  | cons s t ih =>
    cases ss' with
    | nil => simp at h
    | cons s' t' =>
      simp only [List.map_cons, List.cons.injEq] at h
      obtain ⟨h1, h2⟩ := h
      simp only [List.any_cons, statClear_checkPath h1, ih h2]

theorem processEntry_dyn (goos : String) (acc : ScanAcc) (fe : FsEntry) :
    (processEntry goos acc fe).dyn = applyScan fe.path acc.dyn := by
  simp [processEntry, collect_eq]

theorem processEntry_stat (goos : String) (acc : ScanAcc) (fe : FsEntry) :
    (processEntry goos acc fe).stat = acc.stat.map (staticStep fe.path) := by
  simp [processEntry, collectStatic_eq]

theorem processEntry_logs (goos : String) (acc : ScanAcc) (fe : FsEntry) :
    (processEntry goos acc fe).logs = acc.logs ++ collectedLogsF fe.path acc.dyn := by
  simp [processEntry, collect_eq]

theorem processEntry_other (goos : String) (acc : ScanAcc) (fe : FsEntry) :
    (processEntry goos acc fe).other =
      if acc.stat.any (fun s => s.checkPath fe.path) || dynHandled fe.path acc.dyn then acc.other
      else if !fe.isDir && !(IsHiddenFile goos (filepathBase fe.path)) then acc.other ++ [fe.path]
      else acc.other := by
  simp [processEntry, collect_eq, collectStatic_eq]

theorem processEntry_collected (goos : String) (acc : ScanAcc) (fe : FsEntry) :
    (processEntry goos acc fe).collected =
      if acc.stat.any (fun s => s.checkPath fe.path) || dynHandled fe.path acc.dyn then
        acc.collected ++ [fe.path]
      else acc.collected := by
  simp [processEntry, collect_eq, collectStatic_eq]

/-- The walk preserves every dynamic entity's behavior. -/
theorem fold_dyn_clearInst (goos : String) (entries : List FsEntry) :
    ∀ acc : ScanAcc,
      ((entries.foldl (processEntry goos) acc).dyn).map DynamicEntity.clearInst =
        acc.dyn.map DynamicEntity.clearInst := by
  induction entries with
  | nil => intro acc; rfl
  | cons fe rest ih =>
    intro acc
    rw [List.foldl_cons, ih, processEntry_dyn, applyScan_clearInst]

/-- The walk preserves every static entity's behavior. -/
theorem fold_stat_statClear (goos : String) (entries : List FsEntry) :
    ∀ acc : ScanAcc,
      ((entries.foldl (processEntry goos) acc).stat).map StaticEntity.statClear =
        acc.stat.map StaticEntity.statClear := by
  induction entries with
  | nil => intro acc; rfl
  | cons fe rest ih =>
    intro acc
    rw [List.foldl_cons, ih, processEntry_stat, staticMap_statClear]

/-- `OtherFiles` only grows during the walk. -/
theorem fold_other_grow (goos : String) (entries : List FsEntry) :
    ∀ acc : ScanAcc, ∀ x ∈ acc.other, x ∈ (entries.foldl (processEntry goos) acc).other := by
  induction entries with
  | nil => intro acc x hx; exact hx
  | cons fe rest ih =>
    intro acc x hx
    rw [List.foldl_cons]
    refine ih _ x ?_
    rw [processEntry_other]
    split
    · exact hx
    · split
      · exact List.mem_append_left _ hx
      · exact hx

/-- Every path in `OtherFiles` after the walk was either there before or
is the path of some walked non-directory entry. -/
theorem fold_other_src (goos : String) (entries : List FsEntry) :
    ∀ acc : ScanAcc, ∀ x ∈ (entries.foldl (processEntry goos) acc).other,
      x ∈ acc.other ∨ ∃ fe ∈ entries, fe.path = x ∧ fe.isDir = false := by
  induction entries with
  | nil => intro acc x hx; exact Or.inl hx
  | cons fe rest ih =>
    intro acc x hx
    rw [List.foldl_cons] at hx
    rcases ih _ x hx with hin | ⟨fe', hfe', hp, hd⟩
    · rw [processEntry_other] at hin
      split at hin
      · exact Or.inl hin
      · split at hin
        · next hcond =>
          rcases List.mem_append.mp hin with h1 | h2
          · exact Or.inl h1
          · refine Or.inr ⟨fe, List.mem_cons_self fe rest, ?_, ?_⟩
            · exact (List.mem_singleton.mp h2).symm
            · rcases Bool.and_eq_true_iff.mp hcond with ⟨hnd, _⟩
              cases hdir : fe.isDir
              · rfl
              · rw [hdir] at hnd; exact absurd hnd (by decide)
        · exact Or.inl hin
    · exact Or.inr ⟨fe', List.mem_cons_of_mem fe hfe', hp, hd⟩

/-- Every collected path after the walk was either collected before or is
the path of a walked entry handled under the initial behaviors. -/
theorem fold_collected_src (goos : String) (entries : List FsEntry)
    (D : List DynamicEntity) (S : List StaticEntity) :
    ∀ acc : ScanAcc,
      acc.dyn.map DynamicEntity.clearInst = D.map DynamicEntity.clearInst →
      acc.stat.map StaticEntity.statClear = S.map StaticEntity.statClear →
      ∀ x ∈ (entries.foldl (processEntry goos) acc).collected,
        x ∈ acc.collected ∨
          ∃ fe ∈ entries, fe.path = x ∧
            (S.any (fun s => s.checkPath x) || dynHandled x D) = true := by
  induction entries with
  | nil => intro acc _ _ x hx; exact Or.inl hx
  | cons fe rest ih =>
    intro acc hD hS x hx
    rw [List.foldl_cons] at hx
    have hD' : ((processEntry goos acc fe).dyn).map DynamicEntity.clearInst =
        D.map DynamicEntity.clearInst := by
      rw [processEntry_dyn, applyScan_clearInst, hD]
    have hS' : ((processEntry goos acc fe).stat).map StaticEntity.statClear =
        S.map StaticEntity.statClear := by
      rw [processEntry_stat, staticMap_statClear, hS]
    rcases ih _ hD' hS' x hx with hin | ⟨fe', hfe', hp, hflag⟩
    · rw [processEntry_collected] at hin
      split at hin
      · next hcond =>
        rcases List.mem_append.mp hin with h1 | h2
        · exact Or.inl h1
        · have hx2 : fe.path = x := (List.mem_singleton.mp h2).symm
          refine Or.inr ⟨fe, List.mem_cons_self fe rest, hx2, ?_⟩
          rw [← hx2]
          rw [staticAny_congr hS fe.path, dynHandled_congr hD fe.path] at hcond
          exact hcond
      · exact Or.inl hin
    · exact Or.inr ⟨fe', List.mem_cons_of_mem fe hfe', hp, hflag⟩

/-- A path whose classification flag (under the walk-invariant behaviors)
is true is never appended to `OtherFiles` during the walk. -/
theorem fold_not_handled (goos : String) (entries : List FsEntry)
    (D : List DynamicEntity) (p : String) (hflag : dynHandled p D = true) :
    ∀ acc : ScanAcc,
      acc.dyn.map DynamicEntity.clearInst = D.map DynamicEntity.clearInst →
      p ∉ acc.other →
      p ∉ (entries.foldl (processEntry goos) acc).other := by
  induction entries with
  | nil => intro acc _ hnot; exact hnot
  | cons fe rest ih =>
    intro acc hD hnot
    rw [List.foldl_cons]
    have hD' : ((processEntry goos acc fe).dyn).map DynamicEntity.clearInst =
        D.map DynamicEntity.clearInst := by
      rw [processEntry_dyn, applyScan_clearInst, hD]
    refine ih _ hD' ?_
    rw [processEntry_other]
    split
    · exact hnot
    · next hcond =>
      split
      · intro hmem
        rcases List.mem_append.mp hmem with h1 | h2
        · exact hnot h1
        · have hx2 : fe.path = p := (List.mem_singleton.mp h2).symm
          rw [hx2] at hcond
          rw [dynHandled_congr hD p, hflag] at hcond
          simp at hcond
      · exact hnot

/-- A path matched by no classifier and no firing ignore predicate is not
handled. -/
theorem dynHandled_false_of_noMatch (p : String) (ds : List DynamicEntity)
    (h : ∀ e ∈ ds, ignoreFires e p = false ∧ e.checkPath p = false) :
    dynHandled p ds = false := by
  induction ds with
  | nil => rfl
  | cons e es ih =>
    have he := h e (List.mem_cons_self e es)
    have hprod : entityProductive p e = false := by
      simp [entityProductive, he.2]
    simp [dynHandled, he.1, hprod, ih (fun y hy => h y (List.mem_cons_of_mem e hy))]

/-- An unhandled, unhidden file entry of the walk ends up in `OtherFiles`. -/
theorem fold_other_gain (goos : String) (entries : List FsEntry)
    (D : List DynamicEntity) (S : List StaticEntity) (p : String)
    (hdyn : dynHandled p D = false) (hstat : S.any (fun s => s.checkPath p) = false)
    (hhid : IsHiddenFile goos (filepathBase p) = false) :
    ∀ acc : ScanAcc,
      acc.dyn.map DynamicEntity.clearInst = D.map DynamicEntity.clearInst →
      acc.stat.map StaticEntity.statClear = S.map StaticEntity.statClear →
      FsEntry.mk p false ∈ entries →
      p ∈ (entries.foldl (processEntry goos) acc).other := by
  induction entries with
  | nil => intro acc _ _ hmem; cases hmem
  | cons fe rest ih =>
    intro acc hD hS hmem
    rw [List.foldl_cons]
    have hD' : ((processEntry goos acc fe).dyn).map DynamicEntity.clearInst =
        D.map DynamicEntity.clearInst := by
      rw [processEntry_dyn, applyScan_clearInst, hD]
    have hS' : ((processEntry goos acc fe).stat).map StaticEntity.statClear =
        S.map StaticEntity.statClear := by
      rw [processEntry_stat, staticMap_statClear, hS]
    cases hmem with
    | head =>
      refine fold_other_grow goos rest _ p ?_
      rw [processEntry_other]
      have hcond : (acc.stat.any (fun s => s.checkPath p) || dynHandled p acc.dyn) = false := by
        rw [staticAny_congr hS p, dynHandled_congr hD p, hdyn, hstat]
        rfl
      simp only [hcond]
      rw [if_neg (by simp)]
      rw [if_pos (by simp [hhid])]
      exact List.mem_append_right _ (List.mem_singleton.mpr rfl)
    | tail _ hmem' =>
      exact ih _ hD' hS' hmem'

theorem lookup_mapKeyUpdate_ne {β : Type} (m : List (String × β)) (k p : String) (v : β)
    (hne : (k == p) = false) :
    instLookup (m.map (fun q => bif q.1 == k then (k, v) else q)) p = instLookup m p := by
  induction m with
  | nil => rfl
  | cons a t ih =>
    cases hak : (a.1 == k) with
    | true =>
      have hak' : a.1 = k := by simpa using hak
      have hap : (a.1 == p) = false := by
        rw [hak']; exact hne
      simp [instLookup, hak, hne, hap, ih]
    | false =>
      cases hap : (a.1 == p) with
      | true => simp [instLookup, hak, hap]
      | false => simp [instLookup, hak, hap, ih]

theorem lookup_append_single_ne {β : Type} (m : List (String × β)) (k p : String) (v : β)
    (hne : (k == p) = false) :
    instLookup (m ++ [(k, v)]) p = instLookup m p := by
  induction m with
  | nil => simp [instLookup, hne]
  | cons a t ih =>
    cases hap : (a.1 == p) with
    | true => simp [instLookup, hap]
    | false => simp [instLookup, hap, ih]

/-- Updating key `k` leaves lookups of other keys unchanged. -/
theorem instLookup_mapInsert_ne {β : Type} (m : List (String × β)) (k p : String) (v : β)
    (hne : (k == p) = false) :
    instLookup (mapInsert m k v) p = instLookup m p := by
  unfold mapInsert
  split
  · exact lookup_mapKeyUpdate_ne m k p v hne
  · exact lookup_append_single_ne m k p v hne

theorem lookup_mapKeyUpdate_self {β : Type} (m : List (String × β)) (k : String) (v : β)
    (hsome : (instLookup m k).isSome = true) :
    instLookup (m.map (fun q => bif q.1 == k then (k, v) else q)) k = some v := by
  induction m with
  | nil => simp [instLookup] at hsome
  | cons a t ih =>
    cases hak : (a.1 == k) with
    | true => simp [instLookup, hak]
    | false =>
      simp only [instLookup, hak, Bool.cond_false] at hsome
      simp [instLookup, hak, ih hsome]

theorem lookup_append_single_self {β : Type} (m : List (String × β)) (k : String) (v : β)
    (hnone : (instLookup m k).isSome = false) :
    instLookup (m ++ [(k, v)]) k = some v := by
  induction m with
  | nil => simp [instLookup]
  | cons a t ih =>
    cases hak : (a.1 == k) with
    | true => simp [instLookup, hak] at hnone
    | false =>
      simp only [instLookup, hak, Bool.cond_false] at hnone
      simp [instLookup, hak, ih hnone]

/-- Updating key `k` makes lookup of `k` return the new value. -/
theorem instLookup_mapInsert_self {β : Type} (m : List (String × β)) (k : String) (v : β) :
    instLookup (mapInsert m k v) k = some v := by
  unfold mapInsert
  split
  · next hsome => exact lookup_mapKeyUpdate_self m k v hsome
  · next hnone =>
    refine lookup_append_single_self m k v ?_
    cases hcase : (instLookup m k).isSome
    · rfl
    · exact absurd hcase hnone

theorem entityStep_lookup_ne (q p : String) (e : DynamicEntity) (hq : (q == p) = false) :
    instLookup (entityStep q e).entityInstances p = instLookup e.entityInstances p := by
  unfold entityStep
  split
  · exact instLookup_mapInsert_ne _ q p _ hq
  · rfl

/-- The classification loop for `q` stores no instance at `p` when either
`q ≠ p` or no entity productively matches `q`. -/
theorem applyScan_lookup_none (q p : String) (ds : List DynamicEntity)
    (h : ∀ e ∈ ds, instLookup e.entityInstances p = none)
    (hq : (q == p) = true → ∀ e ∈ ds, entityProductive q e = false) :
    ∀ e' ∈ applyScan q ds, instLookup e'.entityInstances p = none := by
  induction ds with
  | nil => intro e' he'; cases he'
  | cons e es ih =>
    have htail : ∀ e' ∈ applyScan q es, instLookup e'.entityInstances p = none := by
      refine ih (fun y hy => h y (List.mem_cons_of_mem e hy)) ?_
      intro hqp y hy
      exact hq hqp y (List.mem_cons_of_mem e hy)
    intro e' he'
    unfold applyScan at he'
    split at he'
    · exact h e' he'
    · cases he' with
      | head =>
        by_cases hqp : (q == p) = true
        · have hprod := hq hqp e (List.mem_cons_self e es)
          unfold entityStep
          rw [if_neg (by simp [hprod])]
          exact h e (List.mem_cons_self e es)
        · have hqp' : (q == p) = false := by
            cases hcase : (q == p)
            · rfl
            · exact absurd hcase hqp
          rw [entityStep_lookup_ne q p e hqp']
          exact h e (List.mem_cons_self e es)
      | tail _ hmem => exact htail _ hmem

/-- The walk never stores an instance at a path no entity productively
matches. -/
theorem fold_lookup_none (goos : String) (entries : List FsEntry)
    (D : List DynamicEntity) (p : String)
    (hprod : ∀ e ∈ D, entityProductive p e = false) :
    ∀ acc : ScanAcc,
      acc.dyn.map DynamicEntity.clearInst = D.map DynamicEntity.clearInst →
      (∀ e ∈ acc.dyn, instLookup e.entityInstances p = none) →
      ∀ e ∈ (entries.foldl (processEntry goos) acc).dyn,
        instLookup e.entityInstances p = none := by
  induction entries with
  | nil => intro acc _ h e he; exact h e he
  | cons fe rest ih =>
    intro acc hD h
    rw [List.foldl_cons]
    have hD' : ((processEntry goos acc fe).dyn).map DynamicEntity.clearInst =
        D.map DynamicEntity.clearInst := by
      rw [processEntry_dyn, applyScan_clearInst, hD]
    refine ih _ hD' ?_
    rw [processEntry_dyn]
    refine applyScan_lookup_none fe.path p acc.dyn h ?_
    intro hqp
    have hfe : fe.path = p := by simpa using hqp
    rw [hfe]
    exact prodFalse_congr hD.symm p hprod

theorem mem_filterAnalyzed (other collected : List String) (p : String) (hp : p ∈ other)
    (hnc : ∀ d ∈ collected, strLeads (d ++ "/") p = false) :
    p ∈ FilterAnalyzedDirectories other collected := by
  refine List.mem_filter.mpr ⟨hp, ?_⟩
  simp only [Bool.not_eq_true']
  rw [List.any_eq_false]
  intro d hd
  simp [hnc d hd]

theorem filterAnalyzed_sub (other collected : List String) (p : String)
    (hp : p ∈ FilterAnalyzedDirectories other collected) : p ∈ other :=
  (List.mem_filter.mp hp).1

/-! ### Properties of the stable sort -/

theorem mem_insertByTime (r y : LogEntry) (l : List LogEntry) :
    y ∈ insertByTime r l ↔ y = r ∨ y ∈ l := by
  induction l with
  | nil => simp [insertByTime]
  | cons x xs ih =>
    by_cases h : r.time ≤ x.time
    · simp [insertByTime, h]
    · simp [insertByTime, h, ih]
      tauto

theorem pairwise_insertByTime (r : LogEntry) (l : List LogEntry)
    (hl : List.Pairwise (fun a b => a.time ≤ b.time) l) :
    List.Pairwise (fun a b => a.time ≤ b.time) (insertByTime r l) := by
  induction l with
  | nil => simp [insertByTime]
  | cons x xs ih =>
    rcases List.pairwise_cons.mp hl with ⟨hx, hxs⟩
    by_cases h : r.time ≤ x.time
    · rw [insertByTime, if_pos h]
      refine List.pairwise_cons.mpr ⟨?_, hl⟩
      intro y hy
      cases hy with
      | head => exact h
      | tail _ hmem => exact Nat.le_trans h (hx y hmem)
    · rw [insertByTime, if_neg h]
      refine List.pairwise_cons.mpr ⟨?_, ih hxs⟩
      intro y hy
      rcases (mem_insertByTime r y xs).mp hy with rfl | hmem
      · exact Nat.le_of_not_le h
      · exact hx y hmem

theorem filter_insertByTime (r : LogEntry) (l : List LogEntry) (t : Nat) :
    (insertByTime r l).filter (fun x => x.time == t) =
      if r.time == t then r :: l.filter (fun x => x.time == t)
      else l.filter (fun x => x.time == t) := by
  induction l with
  | nil =>
    cases hr : (r.time == t) with
    | true => simp [insertByTime, List.filter_cons, hr]
    | false => simp [insertByTime, List.filter_cons, hr]
  | cons x xs ih =>
    by_cases h : r.time ≤ x.time
    · rw [insertByTime, if_pos h]
      cases hr : (r.time == t) with
      | true => simp [List.filter_cons, hr]
      | false => simp [List.filter_cons, hr]
    · rw [insertByTime, if_neg h]
      have hlt : x.time < r.time := Nat.lt_of_not_le h
      cases hr : (r.time == t) with
      | true =>
        have hrt : r.time = t := by simpa using hr
        have hx : (x.time == t) = false := by
          have hne : x.time ≠ t := by omega
          simp [hne]
        simp [List.filter_cons, hx, ih, hr]
      | false =>
        cases hx : (x.time == t) with
        | true => simp [List.filter_cons, hx, ih, hr]
        | false => simp [List.filter_cons, hx, ih, hr]

theorem perm_insertByTime (r : LogEntry) (l : List LogEntry) :
    List.Perm (insertByTime r l) (r :: l) := by
  induction l with
  | nil => simp [insertByTime]
  | cons x xs ih =>
    by_cases h : r.time ≤ x.time
    · rw [insertByTime, if_pos h]
    · rw [insertByTime, if_neg h]
      exact (ih.cons x).trans (List.Perm.swap r x xs)

/-! ### Miscellaneous helper lemmas -/

theorem leadsWith_refl (cs : List Char) : leadsWith cs cs = true := by
  induction cs with
  | nil => rfl
  | cons c t ih => simp [leadsWith, ih]

theorem hasSub_self (pat : List Char) : hasSub pat pat = true := by
  cases pat with
  | nil => rfl
  | cons c t => simp [hasSub, leadsWith_refl]

theorem hasSub_append_left (pat xs ys : List Char) (h : hasSub pat ys = true) :
    hasSub pat (xs ++ ys) = true := by
  induction xs with
  | nil => simpa using h
  | cons x t ih =>
    cases pat with
    | nil => rfl
    | cons p ps => simp [hasSub, ih]

/-- A string contains any of its own suffixes appended to a prefix. -/
theorem stringContains_append (s b : String) : stringContains (s ++ b) b = true := by
  cases s with
  | mk l =>
    cases b with
    | mk m =>
      show hasSub m (l ++ m) = true
      exact hasSub_append_left m l m (hasSub_self m)

theorem clearInst_of_empty (e : DynamicEntity) (h : e.entityInstances = []) :
    e.clearInst = e := by
  cases e
  simp only [DynamicEntity.clearInst] at *
  simp_all

theorem map_clearInst_id (ds : List DynamicEntity) (h : ∀ e ∈ ds, e.entityInstances = []) :
    ds.map DynamicEntity.clearInst = ds := by
  induction ds with
  | nil => rfl
  | cons e es ih =>
    rw [List.map_cons, clearInst_of_empty e (h e (List.mem_cons_self e es)),
        ih (fun y hy => h y (List.mem_cons_of_mem e hy))]

theorem applyScan_noIgnore (p : String) (ds : List DynamicEntity)
    (h : ∀ e ∈ ds, ignoreFires e p = false) :
    applyScan p ds = ds.map (entityStep p) := by
  induction ds with
  | nil => rfl
  | cons e es ih =>
    have he := h e (List.mem_cons_self e es)
    rw [applyScan, if_neg (by simp [he]), List.map_cons,
        ih (fun y hy => h y (List.mem_cons_of_mem e hy))]

theorem collectedLogsF_noIgnore (p : String) (ds : List DynamicEntity)
    (h : ∀ e ∈ ds, ignoreFires e p = false) :
    collectedLogsF p ds = ds.flatMap (entityContribution p) := by
  induction ds with
  | nil => rfl
  | cons e es ih =>
    have he := h e (List.mem_cons_self e es)
    rw [collectedLogsF, if_neg (by simp [he]), List.flatMap_cons,
        ih (fun y hy => h y (List.mem_cons_of_mem e hy))]

theorem dynHandled_noIgnore (p : String) (ds : List DynamicEntity)
    (h : ∀ e ∈ ds, ignoreFires e p = false) :
    dynHandled p ds = ds.any (entityProductive p) := by
  induction ds with
  | nil => rfl
  | cons e es ih =>
    have he := h e (List.mem_cons_self e es)
    rw [dynHandled, if_neg (by simp [he]), List.any_cons,
        ih (fun y hy => h y (List.mem_cons_of_mem e hy))]

theorem dynHandled_append_ignore (p : String) (ds1 ds2 : List DynamicEntity)
    (dI : DynamicEntity) (h1 : ∀ e ∈ ds1, ignoreFires e p = false)
    (hI : ignoreFires dI p = true) :
    dynHandled p (ds1 ++ dI :: ds2) = true := by
  induction ds1 with
  | nil => simp [dynHandled, hI]
  | cons e es ih =>
    have he := h1 e (List.mem_cons_self e es)
    rw [List.cons_append, dynHandled, if_neg (by simp [he]),
        ih (fun y hy => h1 y (List.mem_cons_of_mem e hy))]
    simp

theorem applyScan_append_ignore (p : String) (ds1 ds2 : List DynamicEntity)
    (dI : DynamicEntity) (h1 : ∀ e ∈ ds1, ignoreFires e p = false)
    (hI : ignoreFires dI p = true) :
    applyScan p (ds1 ++ dI :: ds2) = applyScan p ds1 ++ dI :: ds2 := by
  induction ds1 with
  | nil => simp [applyScan, hI]
  | cons e es ih =>
    have he := h1 e (List.mem_cons_self e es)
    rw [List.cons_append, applyScan, if_neg (by simp [he]),
        ih (fun y hy => h1 y (List.mem_cons_of_mem e hy)),
        applyScan, if_neg (by simp [he]), List.cons_append]

theorem collectedLogsF_append_ignore (p : String) (ds1 ds2 : List DynamicEntity)
    (dI : DynamicEntity) (h1 : ∀ e ∈ ds1, ignoreFires e p = false)
    (hI : ignoreFires dI p = true) :
    collectedLogsF p (ds1 ++ dI :: ds2) = collectedLogsF p ds1 := by
  induction ds1 with
  | nil => simp [collectedLogsF, hI]
  | cons e es ih =>
    have he := h1 e (List.mem_cons_self e es)
    rw [List.cons_append, collectedLogsF, if_neg (by simp [he]),
        ih (fun y hy => h1 y (List.mem_cons_of_mem e hy)),
        collectedLogsF, if_neg (by simp [he])]

/-- A handled path (under the analyzer's registered behaviors) never ends
up in `OtherFiles` of a scan that starts with `OtherFiles` empty. -/
theorem parse_other_not_handled (goos : String) (a : Analyzer) (entries : List FsEntry)
    (p : String) (hflag : dynHandled p a.dynamicEntities = true) (hother : a.otherFiles = []) :
    p ∉ (a.ParseLogDirectory goos entries).otherFiles := by
  unfold Analyzer.ParseLogDirectory
  intro hmem
  have h2 := filterAnalyzed_sub _ _ _ hmem
  have h3 := fold_not_handled goos entries a.dynamicEntities p hflag
      { dyn := a.dynamicEntities, stat := a.staticEntities, logs := a.aggregatedLogs,
        collected := [], other := a.otherFiles } rfl
      (by rw [hother]; exact List.not_mem_nil p)
  exact h3 h2

/-- Every instance stored at `p` by the classification loop carries the
hash of `p`. -/
theorem applyScan_lookup_hash (p : String) (ds : List DynamicEntity)
    (h : ∀ e ∈ ds, instLookup e.entityInstances p = none) :
    ∀ e' ∈ applyScan p ds, ∀ pr, instLookup e'.entityInstances p = some pr →
      pr.hash = getHash p := by
  induction ds with
  | nil => intro e' he'; cases he'
  | cons e es ih =>
    intro e' he' pr hpr
    unfold applyScan at he'
    split at he'
    · rw [h e' he'] at hpr
      cases hpr
    · cases he' with
      | head =>
        unfold entityStep at hpr
        split at hpr
        · unfold DynamicEntity.addDynamicEntityInstance at hpr
          rw [instLookup_mapInsert_self] at hpr
          cases hpr
          rfl
        · rw [h e (List.mem_cons_self e es)] at hpr
          cases hpr
      | tail _ hmem =>
        exact ih (fun y hy => h y (List.mem_cons_of_mem e hy)) _ hmem pr hpr

theorem anyFalse_of_forall {S : List StaticEntity} {p : String}
    (h : ∀ s ∈ S, s.checkPath p = false) :
    S.any (fun s => s.checkPath p) = false := by
  rw [List.any_eq_false]
  intro s hs
  simp [h s hs]

theorem mapInsert_ne_nil {β : Type} (m : List (String × β)) (k : String) (v : β) :
    mapInsert m k v ≠ [] := by
  unfold mapInsert
  split
  · next hsome =>
    cases m with
    | nil => simp [instLookup] at hsome
    | cons a t => simp
  · simp

theorem foldl_mapInsert_ne_nil (ss : List StaticEntity) :
    ∀ m : List (String × StaticInfo), m ≠ [] →
      ss.foldl (fun m s => mapInsert m s.name s.collectedInfo) m ≠ [] := by
  induction ss with
  | nil => intro m hm; exact hm
  | cons s t ih =>
    intro m _
    rw [List.foldl_cons]
    exact ih _ (mapInsert_ne_nil m s.name s.collectedInfo)

/-- With at least one registered static entity the lazy aggregate is
non-empty. -/
theorem aggregateStaticInfo_ne_nil (ss : List StaticEntity) (h : ss ≠ []) :
    aggregateStaticInfo ss ≠ [] := by
  cases ss with
  | nil => exact absurd rfl h
  | cons s t =>
    unfold aggregateStaticInfo
    rw [List.foldl_cons]
    exact foldl_mapInsert_ne_nil t _ (mapInsert_ne_nil [] s.name s.collectedInfo)

theorem perm_any_eq {α : Type} {l1 l2 : List α} (h : List.Perm l1 l2) (f : α → Bool) :
    l1.any f = l2.any f := by
  cases h1 : l1.any f with
  | true =>
    obtain ⟨x, hx, hfx⟩ := List.any_eq_true.mp h1
    exact (List.any_eq_true.mpr ⟨x, h.subset hx, hfx⟩).symm
  | false =>
    cases h2 : l2.any f with
    | true =>
      obtain ⟨x, hx, hfx⟩ := List.any_eq_true.mp h2
      have := List.any_eq_true.mpr ⟨x, h.symm.subset hx, hfx⟩
      rw [h1] at this
      cases this
    | false => rfl

/-! ### Concrete fixtures used by witnesses and counterexamples -/

/-- A simple productive log entity: matches every path and converts it to
one INFO record. -/
def cD_prod : DynamicEntity :=
  { name := "idea.log",
    convertPathToLogs := fun _ => some [{ severity := "INFO", time := 5, text := "line one" }],
    checkPath := fun _ => true }

/-- A second productive entity with a different record. -/
def cD_prod2 : DynamicEntity :=
  { name := "build.log",
    convertPathToLogs := fun _ => some [{ severity := "WARN", time := 3, text := "warn one" }],
    checkPath := fun _ => true }

/-- An entity whose ignore predicate fires for every path. -/
def cD_ign : DynamicEntity :=
  { name := "ignored",
    convertPathToLogs := fun _ => none,
    checkPath := fun _ => false,
    checkIgnoredPath := some (fun _ => true) }

/-- An entity matching nothing. -/
def cD_never : DynamicEntity :=
  { name := "never",
    convertPathToLogs := fun _ => none,
    checkPath := fun _ => false }

/-- A static entity fixture. -/
def cS_sum : StaticEntity :=
  { name := "Static Summary",
    convertToStaticInfo := fun _ => {},
    checkPath := fun _ => false }

def cA1 : Analyzer := { dynamicEntities := [cD_never] }

def cA1w : Analyzer := { folderToWorkWith := "/logs" }

def cA5 : Analyzer := { dynamicEntities := [cD_never] }

def cEntries5 : List FsEntry := [⟨"root", true⟩, ⟨"root/notes.txt", false⟩]

def cA8 : Analyzer := { staticEntities := [cS_sum] }

def cA9 : Analyzer := { aggregatedLogs := [], otherFiles := ["root/x.bin"] }

def cA10 : Analyzer := {}

def cEntries10 : List FsEntry := [⟨"root", true⟩, ⟨"root/a.txt", false⟩]

/-! ### The claims -/

/-- C4: for every sequence of appended log records, `sortByTime` produces
a sequence that is non-decreasing by timestamp, the sort is stable (any
two records with equal timestamps retain their relative insertion order:
filtering by any fixed timestamp commutes with sorting), and the result is
a permutation of the input; this holds for the aggregated log of any scan
since the sort is applied to the whole sequence. -/
theorem c4_sortByTime_sorted_stable (l : Logs) (t : Nat) :
    List.Pairwise (fun a b => a.time ≤ b.time) (Logs.SortByTime l) ∧
    (Logs.SortByTime l).filter (fun r => r.time == t) = l.filter (fun r => r.time == t) ∧
    List.Perm (Logs.SortByTime l) l := by
  refine ⟨?_, ?_, ?_⟩
  · induction l with
    | nil => exact List.Pairwise.nil
    | cons x xs ih => exact pairwise_insertByTime x _ ih
  · induction l with
    | nil => rfl
    | cons x xs ih =>
      rw [Logs.SortByTime, filter_insertByTime, List.filter_cons, ih]
  · induction l with
    | nil => exact List.Perm.refl []
    | cons x xs ih => exact (perm_insertByTime x _).trans (ih.cons x)

/-- C9: the other-files accessor and the log accessor both return nil
exactly when the aggregated log is empty — the other-files accessor's
emptiness is decided by the aggregated log, not by OtherFiles itself; with
any record present the accessor returns the collected OtherFiles. -/
theorem c9_accessors_guarded_by_log (a : Analyzer) :
    (Analyzer.GetLogs a = none ↔ a.aggregatedLogs = []) ∧
    (Analyzer.GetOtherFiles a = none ↔ a.aggregatedLogs = []) ∧
    (a.aggregatedLogs = [] → Analyzer.GetOtherFiles a = none ∧ Analyzer.GetLogs a = none) ∧
    (a.aggregatedLogs ≠ [] → Analyzer.GetOtherFiles a = some a.otherFiles) := by
  by_cases h : a.aggregatedLogs = []
  · have hE : Logs.IsEmpty a.aggregatedLogs = true := by
      rw [Logs.IsEmpty, List.isEmpty_iff]
      exact h
    refine ⟨?_, ?_, ?_, ?_⟩
    · simp [Analyzer.GetLogs, Logs.IsEmpty, hE, h]
    · simp [Analyzer.GetOtherFiles, Logs.IsEmpty, hE, h]
    · intro _
      constructor
      · simp [Analyzer.GetOtherFiles, hE]
      · simp [Analyzer.GetLogs, hE]
    · intro hne
      exact absurd h hne
  · have hE : Logs.IsEmpty a.aggregatedLogs = false := by
      rw [Logs.IsEmpty]
      cases hc : a.aggregatedLogs.isEmpty
      · rfl
      · exact absurd (List.isEmpty_iff.mp hc) h
    refine ⟨?_, ?_, ?_, ?_⟩
    · simp [Analyzer.GetLogs, hE, h]
    · simp [Analyzer.GetOtherFiles, hE, h]
    · intro hcon
      exact absurd hcon h
    · intro _
      simp [Analyzer.GetOtherFiles, hE]

/-- C9 witness: an analyzer with an empty aggregated log but a non-empty
OtherFiles list — both accessors still return nil. -/
theorem c9_witness :
    cA9.aggregatedLogs = [] ∧
    (Analyzer.GetOtherFiles cA9 = none ∧ Analyzer.GetLogs cA9 = none) :=
  ⟨rfl, (c9_accessors_guarded_by_log cA9).2.2.1 rfl⟩

/-- C7: for every directory matched by the capture-folder (thread dump)
classifier, conversion yields exactly one record, its severity is FREEZE,
its message contains the folder's base name, and its timestamp equals the
timestamp parsed from the folder name. -/
theorem c7_thread_dump_record (stat : String → Bool) (path : String)
    (h : isThreadDump stat path = true) :
    (getLogEntry path).length = 1 ∧
    ∀ r ∈ getLogEntry path,
      r.severity = "FREEZE" ∧
      stringContains r.text (filepathBase path) = true ∧
      r.time = GetTimeStampFromThreadDump path := by
  refine ⟨rfl, ?_⟩
  intro r hr
  rcases List.mem_singleton.mp hr with rfl
  exact ⟨rfl, stringContains_append "Freeze started: " (filepathBase path), rfl⟩

/-- C7 witness: a concrete capture folder named with a `20230101-120000`
timestamp; additionally its parsed timestamp equals `20230101120000` in
the `Nat` model of `time.Time`. -/
theorem c7_witness :
    isThreadDump (fun _ => true) "logs/threadDump-20230101-120000" = true ∧
    ((getLogEntry "logs/threadDump-20230101-120000").length = 1 ∧
     ∀ r ∈ getLogEntry "logs/threadDump-20230101-120000",
       r.severity = "FREEZE" ∧
       stringContains r.text (filepathBase "logs/threadDump-20230101-120000") = true ∧
       r.time = GetTimeStampFromThreadDump "logs/threadDump-20230101-120000") ∧
    GetTimeStampFromThreadDump "logs/threadDump-20230101-120000" = 20230101120000 :=
  ⟨by decide,
   c7_thread_dump_record (fun _ => true) "logs/threadDump-20230101-120000" (by decide),
   by decide⟩

/-- C10: after a scan starting from an empty OtherFiles list, every path
in OtherFiles is the path of a walked non-directory entry — a directory
entry is never appended to OtherFiles. -/
theorem c10_other_files_not_dir (goos : String) (a : Analyzer) (entries : List FsEntry)
    (p : String) (h0 : a.otherFiles = [])
    (hmem : p ∈ (a.ParseLogDirectory goos entries).otherFiles) :
    ∃ fe ∈ entries, fe.path = p ∧ fe.isDir = false := by
  unfold Analyzer.ParseLogDirectory at hmem
  have h2 := filterAnalyzed_sub _ _ _ hmem
  rcases fold_other_src goos entries _ p h2 with hin | hex
  · have hin' : p ∈ a.otherFiles := hin
    rw [h0] at hin'
    cases hin'
  · exact hex

/-- C10 witness: a scan over a directory entry and a file entry, neither
matched by any entity; the file ends up in OtherFiles and is certified to
be a non-directory entry. -/
theorem c10_witness :
    cA10.otherFiles = [] ∧
    "root/a.txt" ∈ (cA10.ParseLogDirectory "linux" cEntries10).otherFiles ∧
    ∃ fe ∈ cEntries10, fe.path = "root/a.txt" ∧ fe.isDir = false :=
  ⟨rfl, by decide, c10_other_files_not_dir "linux" cA10 cEntries10 "root/a.txt" rfl (by decide)⟩

/-- C3: every EntityInstance identifier is a pure deterministic function
of its path.  Scanning `p` from a fresh (post-clear) state, clearing every
instance map as `clear()` does, and scanning `p` again reproduces exactly
the same entity state — in particular identical identifiers — and every
instance stored at `p` carries `getHash p`, so equal path strings always
receive equal identifiers. -/
theorem c3_identifier_pure (ds : List DynamicEntity) (p : String)
    (h : ∀ e ∈ ds, e.entityInstances = []) :
    (CollectLogsFromDynamicEntities p []
        ((CollectLogsFromDynamicEntities p [] ds).1.map DynamicEntity.clearInst)).1 =
      (CollectLogsFromDynamicEntities p [] ds).1 ∧
    ∀ e ∈ (CollectLogsFromDynamicEntities p [] ds).1, ∀ pr,
      instLookup e.entityInstances p = some pr → pr.hash = getHash p := by
  constructor
  · have hmap : ((CollectLogsFromDynamicEntities p [] ds).1).map DynamicEntity.clearInst = ds := by
      rw [collect_eq]
      show (applyScan p ds).map DynamicEntity.clearInst = ds
      rw [applyScan_clearInst, map_clearInst_id ds h]
    rw [hmap]
  · rw [collect_eq]
    show ∀ e ∈ applyScan p ds, _
    refine applyScan_lookup_hash p ds ?_
    intro e he
    rw [h e he]
    rfl

/-- C3 witness: one registered log entity, scanned at a concrete path;
the rescan-after-clear state is identical and the stored identifier is
the path hash. -/
theorem c3_witness :
    (∀ e ∈ [cD_prod], e.entityInstances = []) ∧
    ((CollectLogsFromDynamicEntities "root/idea.log" []
        ((CollectLogsFromDynamicEntities "root/idea.log" [] [cD_prod]).1.map
          DynamicEntity.clearInst)).1 =
      (CollectLogsFromDynamicEntities "root/idea.log" [] [cD_prod]).1 ∧
    ∀ e ∈ (CollectLogsFromDynamicEntities "root/idea.log" [] [cD_prod]).1, ∀ pr,
      instLookup e.entityInstances "root/idea.log" = some pr →
        pr.hash = getHash "root/idea.log") := by
  have hinst : ∀ e ∈ [cD_prod], e.entityInstances = [] := by
    intro e he
    rcases List.mem_singleton.mp he with rfl
    rfl
  exact ⟨hinst, c3_identifier_pure [cD_prod] "root/idea.log" hinst⟩

/-- C2 counterexample: with a productive entity registered before an
entity whose ignore predicate fires, the path is marked handled but the
earlier entity has already contributed one record and one EntityInstance —
the claim's "no records and no EntityInstance from any descriptor" fails. -/
theorem c2_counterexample :
    (CollectLogsFromDynamicEntities "root/idea.log" [] [cD_prod, cD_ign]).2.2 = true ∧
    ((CollectLogsFromDynamicEntities "root/idea.log" [] [cD_prod, cD_ign]).2.1).length = 1 ∧
    ((CollectLogsFromDynamicEntities "root/idea.log" [] [cD_prod, cD_ign]).1.map
      (fun e => (instLookup e.entityInstances "root/idea.log").isSome)) = [true, false] ∧
    ignoreFires cD_ign "root/idea.log" = true :=
  ⟨rfl, rfl, rfl, rfl⟩

/-- C2 (amended): an ignore match short-circuits the classification loop
from the first descriptor whose ignore predicate fires onward: the path is
marked handled (and with an initially empty OtherFiles it never reaches
OtherFiles), descriptors from the firing one onward are left untouched and
contribute no records, but descriptors registered before it keep their
contributions. -/
theorem c2_ignore_short_circuit (p : String) (l : Logs) (ds1 ds2 : List DynamicEntity)
    (dI : DynamicEntity) (h1 : ∀ e ∈ ds1, ignoreFires e p = false)
    (hI : ignoreFires dI p = true) :
    (CollectLogsFromDynamicEntities p l (ds1 ++ dI :: ds2)).2.2 = true ∧
    (CollectLogsFromDynamicEntities p l (ds1 ++ dI :: ds2)).1 =
      (CollectLogsFromDynamicEntities p l ds1).1 ++ dI :: ds2 ∧
    (CollectLogsFromDynamicEntities p l (ds1 ++ dI :: ds2)).2.1 =
      (CollectLogsFromDynamicEntities p l ds1).2.1 ∧
    ∀ (goos : String) (a : Analyzer) (entries : List FsEntry),
      a.dynamicEntities = ds1 ++ dI :: ds2 → a.otherFiles = [] →
      p ∉ (a.ParseLogDirectory goos entries).otherFiles := by
  refine ⟨?_, ?_, ?_, ?_⟩
  · rw [collect_eq]
    exact dynHandled_append_ignore p ds1 ds2 dI h1 hI
  · rw [collect_eq, collect_eq]
    show applyScan p (ds1 ++ dI :: ds2) = applyScan p ds1 ++ dI :: ds2
    exact applyScan_append_ignore p ds1 ds2 dI h1 hI
  · rw [collect_eq, collect_eq]
    show l ++ collectedLogsF p (ds1 ++ dI :: ds2) = l ++ collectedLogsF p ds1
    rw [collectedLogsF_append_ignore p ds1 ds2 dI h1 hI]
  · intro goos a entries ha hother
    refine parse_other_not_handled goos a entries p ?_ hother
    rw [ha]
    exact dynHandled_append_ignore p ds1 ds2 dI h1 hI

/-- C2 witness: the productive-then-ignored registration order at a
concrete path — the path is handled while the earlier descriptor's
contribution stands. -/
theorem c2_witness :
    (∀ e ∈ [cD_prod], ignoreFires e "root/idea.log" = false) ∧
    ignoreFires cD_ign "root/idea.log" = true ∧
    (CollectLogsFromDynamicEntities "root/idea.log" [] ([cD_prod] ++ cD_ign :: [])).2.2 = true := by
  have h1 : ∀ e ∈ [cD_prod], ignoreFires e "root/idea.log" = false := by
    intro e he
    rcases List.mem_singleton.mp he with rfl
    rfl
  exact ⟨h1, rfl,
    (c2_ignore_short_circuit "root/idea.log" [] [cD_prod] [] cD_ign h1 rfl).1⟩

/-- C6 counterexample: registration order changes the outcome when an
ignoring descriptor is present — with the ignoring entity first, a
productively matching entity contributes nothing, so the produced record
set is neither the union over productively matching descriptors nor
order-independent. -/
theorem c6_counterexample :
    ((CollectLogsFromDynamicEntities "root/idea.log" [] [cD_ign, cD_prod]).2.1).length = 0 ∧
    ((CollectLogsFromDynamicEntities "root/idea.log" [] [cD_prod, cD_ign]).2.1).length = 1 ∧
    entityProductive "root/idea.log" cD_prod = true :=
  ⟨rfl, rfl, rfl⟩

/-- C6 (amended): provided no registered descriptor's ignore predicate
fires for the path, a single path may match multiple descriptors and each
productive match independently contributes its records and its own
EntityInstance: the produced records are the concatenation of the
per-descriptor contributions, the entity states are stepped pointwise, and
for any permutation of the registration order the produced record multiset,
the entity-state multiset and the handled flag are unchanged (not
first-match-wins). -/
theorem c6_multi_match_order_independent (p : String) (ds ds' : List DynamicEntity)
    (h : ∀ e ∈ ds, ignoreFires e p = false) (hperm : List.Perm ds' ds) :
    (CollectLogsFromDynamicEntities p [] ds).1 = ds.map (entityStep p) ∧
    (CollectLogsFromDynamicEntities p [] ds).2.1 = ds.flatMap (entityContribution p) ∧
    (CollectLogsFromDynamicEntities p [] ds).2.2 = ds.any (entityProductive p) ∧
    List.Perm (CollectLogsFromDynamicEntities p [] ds').2.1
      (CollectLogsFromDynamicEntities p [] ds).2.1 ∧
    List.Perm (CollectLogsFromDynamicEntities p [] ds').1
      (CollectLogsFromDynamicEntities p [] ds).1 ∧
    (CollectLogsFromDynamicEntities p [] ds').2.2 =
      (CollectLogsFromDynamicEntities p [] ds).2.2 := by
  have h' : ∀ e ∈ ds', ignoreFires e p = false := fun e he => h e (hperm.subset he)
  have e1 : (CollectLogsFromDynamicEntities p [] ds).1 = ds.map (entityStep p) := by
    rw [collect_eq]
    exact applyScan_noIgnore p ds h
  have e2 : (CollectLogsFromDynamicEntities p [] ds).2.1 =
      ds.flatMap (entityContribution p) := by
    rw [collect_eq]
    show [] ++ collectedLogsF p ds = _
    rw [List.nil_append]
    exact collectedLogsF_noIgnore p ds h
  have e3 : (CollectLogsFromDynamicEntities p [] ds).2.2 = ds.any (entityProductive p) := by
    rw [collect_eq]
    exact dynHandled_noIgnore p ds h
  have e1' : (CollectLogsFromDynamicEntities p [] ds').1 = ds'.map (entityStep p) := by
    rw [collect_eq]
    exact applyScan_noIgnore p ds' h'
  have e2' : (CollectLogsFromDynamicEntities p [] ds').2.1 =
      ds'.flatMap (entityContribution p) := by
    rw [collect_eq]
    show [] ++ collectedLogsF p ds' = _
    rw [List.nil_append]
    exact collectedLogsF_noIgnore p ds' h'
  have e3' : (CollectLogsFromDynamicEntities p [] ds').2.2 = ds'.any (entityProductive p) := by
    rw [collect_eq]
    exact dynHandled_noIgnore p ds' h'
  refine ⟨e1, e2, e3, ?_, ?_, ?_⟩
  · rw [e2, e2']
    exact hperm.flatMap_right (entityContribution p)
  · rw [e1, e1']
    exact hperm.map (entityStep p)
  · rw [e3, e3']
    exact perm_any_eq hperm (entityProductive p)

/-- C6 witness: two productive descriptors at one path, in both orders —
each contributes its own record and instance and the multiset outcome is
order-independent. -/
theorem c6_witness :
    (∀ e ∈ [cD_prod, cD_prod2], ignoreFires e "root/idea.log" = false) ∧
    List.Perm [cD_prod2, cD_prod] [cD_prod, cD_prod2] ∧
    (CollectLogsFromDynamicEntities "root/idea.log" [] [cD_prod, cD_prod2]).2.1 =
      [cD_prod, cD_prod2].flatMap (entityContribution "root/idea.log") := by
  have h : ∀ e ∈ [cD_prod, cD_prod2], ignoreFires e "root/idea.log" = false := by
    intro e he
    rcases List.mem_cons.mp he with rfl | he2
    · rfl
    · rcases List.mem_singleton.mp he2 with rfl
      rfl
  exact ⟨h, List.Perm.swap cD_prod cD_prod2 [],
    (c6_multi_match_order_independent "root/idea.log" [cD_prod, cD_prod2] [cD_prod2, cD_prod]
      h (List.Perm.swap cD_prod cD_prod2 [])).2.1⟩

/-- C5 counterexample: a directory path matched by zero descriptors and
not hidden does not appear in OtherFiles after the scan — the claim omits
the scanner's non-directory condition. -/
theorem c5_counterexample :
    (cA5.ParseLogDirectory "linux" [⟨"root/sub", true⟩]).otherFiles = [] ∧
    (∀ e ∈ cA5.dynamicEntities,
      e.checkPath "root/sub" = false ∧ ignoreFires e "root/sub" = false) ∧
    cA5.staticEntities = [] ∧
    IsHiddenFile "linux" (filepathBase "root/sub") = false := by
  refine ⟨rfl, ?_, rfl, rfl⟩
  intro e he
  rcases List.mem_singleton.mp he with rfl
  exact ⟨rfl, rfl⟩

/-- C5 (amended): a NON-DIRECTORY path matched by zero dynamic or static
entities (with no firing ignore predicate), not hidden, and not lying
inside any walked path that is itself handled, appears in OtherFiles after
the scan and belongs to no EntityInstance; conversely, any path handled by
at least one descriptor (a productive or ignore match) never appears in
OtherFiles of a scan started with OtherFiles empty. -/
theorem c5_unmatched_file_in_other (goos : String) (a : Analyzer) (entries : List FsEntry)
    (p : String)
    (hmatch : ∀ e ∈ a.dynamicEntities, ignoreFires e p = false ∧ e.checkPath p = false)
    (hstat : ∀ s ∈ a.staticEntities, s.checkPath p = false)
    (hhid : IsHiddenFile goos (filepathBase p) = false)
    (hmem : FsEntry.mk p false ∈ entries)
    (hanc : ∀ fe ∈ entries, strLeads (fe.path ++ "/") p = false ∨
        (dynHandled fe.path a.dynamicEntities = false ∧
         a.staticEntities.any (fun s => s.checkPath fe.path) = false))
    (hinst : ∀ e ∈ a.dynamicEntities, instLookup e.entityInstances p = none) :
    p ∈ (a.ParseLogDirectory goos entries).otherFiles ∧
    (∀ e ∈ (a.ParseLogDirectory goos entries).dynamicEntities,
      instLookup e.entityInstances p = none) ∧
    ∀ (q : String) (b : Analyzer), dynHandled q b.dynamicEntities = true →
      b.otherFiles = [] → q ∉ (b.ParseLogDirectory goos entries).otherFiles := by
  have hdyn0 : dynHandled p a.dynamicEntities = false :=
    dynHandled_false_of_noMatch p a.dynamicEntities hmatch
  have hstat0 : a.staticEntities.any (fun s => s.checkPath p) = false :=
    anyFalse_of_forall hstat
  refine ⟨?_, ?_, ?_⟩
  · show p ∈ FilterAnalyzedDirectories _ _
    refine mem_filterAnalyzed _ _ p ?_ ?_
    · exact fold_other_gain goos entries a.dynamicEntities a.staticEntities p hdyn0 hstat0 hhid
        { dyn := a.dynamicEntities, stat := a.staticEntities, logs := a.aggregatedLogs,
          collected := [], other := a.otherFiles } rfl rfl hmem
    · intro d hd
      rcases fold_collected_src goos entries a.dynamicEntities a.staticEntities
          { dyn := a.dynamicEntities, stat := a.staticEntities, logs := a.aggregatedLogs,
            collected := [], other := a.otherFiles } rfl rfl d hd with hin | ⟨fe, hfe, hpath, hflag⟩
      · cases hin
      · rcases hanc fe hfe with hlead | ⟨hdf, hsf⟩
        · rw [← hpath]
          exact hlead
        · rw [hpath] at hdf hsf
          rw [hdf, hsf] at hflag
          cases hflag
  · show ∀ e ∈ (List.foldl (processEntry goos) _ entries).dyn, _
    refine fold_lookup_none goos entries a.dynamicEntities p ?_
        { dyn := a.dynamicEntities, stat := a.staticEntities, logs := a.aggregatedLogs,
          collected := [], other := a.otherFiles } rfl hinst
    intro e he
    simp [entityProductive, (hmatch e he).2]
  · intro q b hf hb
    exact parse_other_not_handled goos b entries q hf hb

/-- C5 witness: a concrete walk over an unmatched directory and an
unmatched file — the file lands in OtherFiles, owns no instance, and the
converse handled-path exclusion is certified at a handled path. -/
theorem c5_witness :
    (∀ e ∈ cA5.dynamicEntities,
      ignoreFires e "root/notes.txt" = false ∧ e.checkPath "root/notes.txt" = false) ∧
    "root/notes.txt" ∈ (cA5.ParseLogDirectory "linux" cEntries5).otherFiles := by
  have hmatch : ∀ e ∈ cA5.dynamicEntities,
      ignoreFires e "root/notes.txt" = false ∧ e.checkPath "root/notes.txt" = false := by
    intro e he
    rcases List.mem_singleton.mp he with rfl
    exact ⟨rfl, rfl⟩
  refine ⟨hmatch, ?_⟩
  exact (c5_unmatched_file_in_other "linux" cA5 cEntries5 "root/notes.txt" hmatch
    (by intro s hs; cases hs) rfl (by decide) (by decide)
    (by intro e he; rcases List.mem_singleton.mp he with rfl; rfl)).1

/-- Any analyzer whose working-folder field is non-empty is not
structurally zero. -/
theorem isEmpty_false_of_folder (a : Analyzer) (h : (a.folderToWorkWith == "") = false) :
    Analyzer.IsEmpty a = false := by
  simp [Analyzer.IsEmpty, h]

/-- If the structural-zero check succeeds then no log record exists. -/
theorem isEmpty_true_logs_empty (a : Analyzer) (h : Analyzer.IsEmpty a = true) :
    a.aggregatedLogs = [] := by
  by_cases hl : a.aggregatedLogs = []
  · exact hl
  · have hE : Logs.IsEmpty a.aggregatedLogs = false := by
      rw [Logs.IsEmpty]
      cases hc : a.aggregatedLogs.isEmpty
      · rfl
      · exact absurd (List.isEmpty_iff.mp hc) hl
    rw [Analyzer.IsEmpty, hE] at h
    simp at h

/-- C1 counterexample: scanning an empty directory from the top-level
entry point produces no record, yet the "no recognized artifacts" failure
is NOT reported — `IsEmpty` checks the whole struct via reflection, and the
entry point has already stored the context and the root path. -/
theorem c1_counterexample :
    (InitLogDirectory "linux" "/logs" true [] cA1).2.aggregatedLogs = [] ∧
    (InitLogDirectory "linux" "/logs" true [] cA1).1 = false :=
  ⟨rfl, rfl⟩

/-- C1 (amended): `IsEmpty` is the structural-zero check of the whole
analyzer struct, not a test of the aggregated record set.  It still
implies that no record exists, but the converse fails: any non-zero field
(for instance the working-folder path, which the top-level entry operation
sets before scanning) forces `IsEmpty` to false, so with a non-empty root
path the top-level "no recognized artifacts" failure is never reported,
even when the scan produced no record. -/
theorem c1_isEmpty_structural (a a' : Analyzer) (goos path : String) (ctxSet : Bool)
    (entries : List FsEntry) :
    (Analyzer.IsEmpty a = true → a.aggregatedLogs = []) ∧
    (a.folderToWorkWith ≠ "" → Analyzer.IsEmpty a = false) ∧
    (path ≠ "" → (InitLogDirectory goos path ctxSet entries a').1 = false) := by
  refine ⟨isEmpty_true_logs_empty a, ?_, ?_⟩
  · intro h
    refine isEmpty_false_of_folder a ?_
    cases hc : a.folderToWorkWith == ""
    · rfl
    · exact absurd (by simpa using hc) h
  · intro h
    have hb : (path == "") = false := by
      cases hc : path == ""
      · rfl
      · exact absurd (by simpa using hc) h
    exact isEmpty_false_of_folder _ hb

/-- C1 witness: a non-empty working folder forces `IsEmpty` to false, and
the top-level entry with root `"/logs"` reports no failure. -/
theorem c1_witness :
    cA1w.folderToWorkWith ≠ "" ∧ Analyzer.IsEmpty cA1w = false ∧
    (InitLogDirectory "linux" "/logs" true [] cA1).1 = false := by
  have h1 : cA1w.folderToWorkWith ≠ "" := by decide
  refine ⟨h1, (c1_isEmpty_structural cA1w cA1 "linux" "/logs" true []).2.1 h1, ?_⟩
  exact (c1_isEmpty_structural cA1w cA1 "linux" "/logs" true []).2.2 (by decide)

theorem clearInst_idem (e : DynamicEntity) : e.clearInst.clearInst = e.clearInst := rfl

theorem statClear_idem (s : StaticEntity) : s.statClear.statClear = s.statClear := rfl

theorem map_map_clearInst (ds : List DynamicEntity) :
    (ds.map DynamicEntity.clearInst).map DynamicEntity.clearInst =
      ds.map DynamicEntity.clearInst := by
  induction ds with
  | nil => rfl
  | cons e es ih =>
    simp only [List.map_cons, ih, clearInst_idem]

theorem map_map_statClear (ss : List StaticEntity) :
    (ss.map StaticEntity.statClear).map StaticEntity.statClear =
      ss.map StaticEntity.statClear := by
  induction ss with
  | nil => rfl
  | cons s t ih =>
    simp only [List.map_cons, ih, statClear_idem]

/-- C8 counterexample: immediately after `clear()` on an analyzer with one
registered static entity, the static-info accessor does not return an
empty result — it lazily re-aggregates and yields one entry. -/
theorem c8_counterexample :
    (getStaticInfoGo 2 cA8.Clear).map (fun r => (r.1).length) = some 1 :=
  rfl

/-- C8 (amended): `clear()` empties the aggregated log, the filters,
OtherFiles, the artifact-analysis cache and every descriptor's instance
map while leaving the registered descriptors in place; it is idempotent
and safe before any scan; the log, other-files and filter accessors return
nil immediately after it — but the static-info accessor does not return an
empty result: with at least one registered static entity it lazily
re-aggregates one zero-valued entry per entity. -/
theorem c8_clear_resets (a : Analyzer) :
    a.Clear.aggregatedLogs = [] ∧ a.Clear.filters = [] ∧ a.Clear.otherFiles = [] ∧
    a.Clear.aggregatedThreadDumps = [] ∧
    (a.Clear.dynamicEntities).map DynamicEntity.clearInst =
      a.dynamicEntities.map DynamicEntity.clearInst ∧
    (∀ e ∈ a.Clear.dynamicEntities, e.entityInstances = []) ∧
    a.Clear.Clear = a.Clear ∧
    Analyzer.GetLogs a.Clear = none ∧ Analyzer.GetOtherFiles a.Clear = none ∧
    Analyzer.GetFilters a.Clear = none ∧
    (a.staticEntities ≠ [] → ∃ r, getStaticInfoGo 2 a.Clear = some r ∧ r.1 ≠ []) := by
  refine ⟨rfl, rfl, rfl, rfl, map_map_clearInst a.dynamicEntities, ?_, ?_, rfl, rfl, rfl, ?_⟩
  · intro e he
    obtain ⟨x, _, rfl⟩ := List.mem_map.mp he
    rfl
  · show Analyzer.Clear (Analyzer.Clear a) = Analyzer.Clear a
    unfold Analyzer.Clear
    congr 1
    · exact map_map_clearInst a.dynamicEntities
    · exact map_map_statClear a.staticEntities
  · intro hne
    have hmapne : a.staticEntities.map StaticEntity.statClear ≠ [] := by
      intro hmapeq
      cases hs : a.staticEntities with
      | nil => exact hne hs
      | cons s t =>
        rw [hs] at hmapeq
        cases hmapeq
    have hagg : aggregateStaticInfo (a.Clear.staticEntities) ≠ [] :=
      aggregateStaticInfo_ne_nil _ hmapne
    have hEmpty : List.isEmpty (aggregateStaticInfo (a.Clear.staticEntities)) = false := by
      cases hc : List.isEmpty (aggregateStaticInfo (a.Clear.staticEntities))
      · rfl
      · exact absurd (List.isEmpty_iff.mp hc) hagg
    refine ⟨(aggregateStaticInfo (a.Clear.staticEntities),
        { a.Clear with aggregatedStaticInfo := aggregateStaticInfo (a.Clear.staticEntities) }),
      ?_, hagg⟩
    have h0 : a.Clear.aggregatedStaticInfo = [] := rfl
    show getStaticInfoGo 2 a.Clear = _
    simp [getStaticInfoGo, h0, hEmpty]

/-- C8 witness: the analyzer with one registered static entity — after
`clear()` the static-info accessor yields a non-empty aggregate. -/
theorem c8_witness :
    cA8.staticEntities ≠ [] ∧
    ∃ r, getStaticInfoGo 2 cA8.Clear = some r ∧ r.1 ≠ [] :=
  ⟨List.cons_ne_nil cS_sum [],
   (c8_clear_resets cA8).2.2.2.2.2.2.2.2.2.2 (List.cons_ne_nil cS_sum [])⟩
